import Mathlib

/-!
Verification of the filter-and-dedup pipeline of a Solana token
notification bot.

The development shallowly embeds the TypeScript sources:
* the in-memory `TokenTracker` (src/config.ts, second document): a
  `Map<string, number>` from token address to the `Date.now()` instant at
  which the token was marked as sent, with a periodic `cleanup` that
  deletes entries older than the retention window;
* the file-backed `TokenTracker` (src/unnamed/part_002): same map, plus
  `loadFromFile` which recognises a legacy persisted schema (a bare array
  of address strings) and migrates it, and `saveToFile` which writes the
  entries in the new `{address, timestamp}` schema;
* the hours-based `DexScreenerService.applyFilters`
  (src/dexscreener.service.ts): per-pair predicate rejecting missing
  timestamps, future timestamps, too-old pairs and low liquidity;
* the seconds-based `DexScreenerService.fetchNewSolanaPairs`
  (src/unnamed/part_006): chain filter, truthy-timestamp filter, stable
  sort newest first, age window, liquidity-present-and-at-least filter,
  then truncation to the batch cap;
* the top-10 variant (src/unnamed/part_005): same, but the truncation to
  10 items happens right after the sort, before the age and liquidity
  filters;
* the dispatch loop of `SolanaTokenBot.checkForNewTokens`
  (src/unnamed/part_004, first document): per-item try/catch, marking on
  success only, and a pacing delay after a successful send that is not in
  the last position.

Timestamps are embedded as `Int` (milliseconds, or seconds where the API
delivers seconds and the code multiplies by 1000), and USD liquidity as
`ℚ`.  JavaScript `Map` state is a `List (String × Int)` in insertion
order with unique keys maintained by `mapSet`.
-/

/-- One JavaScript `Map.set(k, v)` step: replace the value at an existing
key in place, else append the new binding (JS `Map` insertion order). -/
def mapSet (k : String) (v : Int) : List (String × Int) → List (String × Int)
  | [] => [(k, v)]
  | (a, t) :: rest => if a == k then (a, v) :: rest else (a, t) :: mapSet k v rest

/-- JavaScript `Map.get`: the value at the first (unique) occurrence of a key. -/
def lookupT (k : String) : List (String × Int) → Option Int
  | [] => none
  | (a, t) :: rest => if a == k then some t else lookupT k rest

/-- `TokenTracker.hasSent(tokenAddress)`: `this.sentTokens.has(tokenAddress)`. -/
def hasSent (k : String) (m : List (String × Int)) : Bool :=
  (lookupT k m).isSome

/-- `TokenTracker.markAsSent(tokenAddress)`: `this.sentTokens.set(tokenAddress, Date.now())`,
with the ambient clock passed explicitly. -/
def markAsSent (k : String) (now : Int) (m : List (String × Int)) : List (String × Int) :=
  mapSet k now m

/-- `TokenTracker.getSentCount()`: `this.sentTokens.size`. -/
def getSentCount (m : List (String × Int)) : Nat :=
  m.length

/-- `TokenTracker.cleanup()` (src/config.ts): deletes every entry whose
`timestamp < now - maxAgeMs`, keeping the rest in order.  The retention
window `maxAgeMs` (120000 in the source) and the clock are explicit. -/
def cleanup (maxAgeMs now : Int) (m : List (String × Int)) : List (String × Int) :=
  m.filter (fun e => !(decide (e.2 < now - maxAgeMs)))

/-- The shape of the persisted `sent-tokens.json` payload
(src/unnamed/part_002): either the legacy schema, a bare array of address
strings, or the timestamped schema, an array of `{address, timestamp}`
records. -/
inductive StoredPayload where
  | legacy (addrs : List String)
  | timestamped (entries : List (String × Int))

/-- `new Map(list)`: fold the bindings through `mapSet`. -/
def buildMap (l : List (String × Int)) : List (String × Int) :=
  l.foldl (fun m e => mapSet e.1 e.2 m) []

/-- `TokenTracker.loadFromFile()` (src/unnamed/part_002): given the decoded
payload (`none` when the file is missing) and the load-time clock, return
the resulting map together with the payload written back by `saveToFile`
(`none` when nothing is written).  A non-empty legacy array is migrated —
every address is given `now` as its timestamp and the map is saved in the
new schema; an empty array falls into the timestamped branch and is not
saved. -/
def loadFromFile (stored : Option StoredPayload) (now : Int) :
    List (String × Int) × Option (List (String × Int)) :=
  match stored with
  | none => ([], none)
  | some (.legacy addrs) =>
      if 0 < addrs.length then
        (buildMap (addrs.map (fun a => (a, now))),
         some (buildMap (addrs.map (fun a => (a, now)))))
      else ([], none)
  | some (.timestamped entries) => (buildMap entries, none)

/-- A discovered trading pair as consumed by the filters: `chainId`, the
base token contract address, the optional creation timestamp
(`pairCreatedAt`, seconds), and the optional `liquidity.usd` field. -/
structure TokenPair where
  chainId : String
  baseTokenAddress : String
  pairCreatedAt : Option Int
  liquidityUsd : Option ℚ
deriving DecidableEq

/-- The sort key `(pair.pairCreatedAt || 0)` used by the comparator
`(b.pairCreatedAt || 0) - (a.pairCreatedAt || 0)`. -/
def keyOf (p : TokenPair) : Int :=
  p.pairCreatedAt.getD 0

/-- The order in which the comparator `(b.pairCreatedAt || 0) - (a.pairCreatedAt || 0)`
places `a` no later than `b` (newest first). -/
def byNewest (a b : TokenPair) : Prop :=
  keyOf b ≤ keyOf a

instance : DecidableRel byNewest :=
  fun a b => inferInstanceAs (Decidable (keyOf b ≤ keyOf a))

instance : IsTotal TokenPair byNewest :=
  ⟨fun a b => (Int.le_total (keyOf a) (keyOf b)).symm⟩

instance : IsTrans TokenPair byNewest :=
  ⟨fun _ _ _ hab hbc => le_trans hbc hab⟩

/-- JavaScript truthiness of `pair.pairCreatedAt` as used by
`.filter(pair => pair.pairCreatedAt)`: present and non-zero. -/
def hasCreatedAt (p : TokenPair) : Bool :=
  match p.pairCreatedAt with
  | none => false
  | some c => decide (c ≠ 0)

/-- The `isRecent` predicate of src/unnamed/part_006 lines 58-68:
`tokenCreatedAt = (pair.pairCreatedAt || 0) * 1000` and
`isRecent = tokenCreatedAt >= Date.now() - maxTokenAgeSeconds * 1000`. -/
def isRecentPair (now maxTokenAgeSeconds : Int) (p : TokenPair) : Bool :=
  decide (now - maxTokenAgeSeconds * 1000 ≤ keyOf p * 1000)

/-- The liquidity predicate of src/unnamed/part_006 lines 73-81:
`pair.liquidity?.usd !== undefined && pair.liquidity.usd >= this.minLiquidityUsd`.
The field must be present; an absent field is rejected outright. -/
def hasMinLiquidity (minLiquidityUsd : ℚ) (p : TokenPair) : Bool :=
  match p.liquidityUsd with
  | none => false
  | some q => decide (minLiquidityUsd ≤ q)

/-- The pre-truncation survivor list of
`DexScreenerService.fetchNewSolanaPairs` in src/unnamed/part_006
(`liquidPairs`): Solana pairs with a truthy creation timestamp, stably
sorted newest first, then age-filtered, then liquidity-filtered.
`List.insertionSort` is a stable sort, matching the ECMAScript
`Array.prototype.sort` stability guarantee. -/
def liquidPairs6 (pairs : List TokenPair) (now maxTokenAgeSeconds : Int)
    (minLiquidityUsd : ℚ) : List TokenPair :=
  ((((pairs.filter (fun p => p.chainId == "solana")).filter
      hasCreatedAt).insertionSort byNewest).filter
        (isRecentPair now maxTokenAgeSeconds)).filter
          (hasMinLiquidity minLiquidityUsd)

/-- `DexScreenerService.fetchNewSolanaPairs(maxTokensPerBatch)` of
src/unnamed/part_006: the survivor list truncated to the batch cap
(`liquidPairs.slice(0, maxTokensPerBatch)`). -/
def fetchNewSolanaPairs6 (pairs : List TokenPair) (now maxTokenAgeSeconds : Int)
    (minLiquidityUsd : ℚ) (maxTokensPerBatch : Nat) : List TokenPair :=
  (liquidPairs6 pairs now maxTokenAgeSeconds minLiquidityUsd).take maxTokensPerBatch

/-- `DexScreenerService.fetchNewSolanaPairs()` of src/unnamed/part_005:
identical chain/timestamp filtering and stable sort, but the truncation
`solanaPairs.slice(0, 10)` is applied right after the sort, before the
age and liquidity filters. -/
def fetchNewSolanaPairs5 (pairs : List TokenPair) (now maxTokenAgeSeconds : Int)
    (minLiquidityUsd : ℚ) : List TokenPair :=
  (((((pairs.filter (fun p => p.chainId == "solana")).filter
      hasCreatedAt).insertionSort byNewest).take 10).filter
        (isRecentPair now maxTokenAgeSeconds)).filter
          (hasMinLiquidity minLiquidityUsd)

/-- The per-pair acceptance predicate of `DexScreenerService.applyFilters`
(src/dexscreener.service.ts lines 76-141), hours-based variant:
reject a falsy `pairCreatedAt`; reject `createdAtMs > now` (future dates);
reject `createdAtMs < now - maxTokenAgeHours * 60 * 60 * 1000` (too old);
reject `(pair.liquidity?.usd || 0) < minLiquidityUsd`. -/
def acceptPair (now maxTokenAgeHours : Int) (minLiquidityUsd : ℚ) (p : TokenPair) : Bool :=
  match p.pairCreatedAt with
  | none => false
  | some c =>
      if c == 0 then false
      else if decide (now < c * 1000) then false
      else if decide (c * 1000 < now - maxTokenAgeHours * 60 * 60 * 1000) then false
      else decide (minLiquidityUsd ≤ p.liquidityUsd.getD 0)

/-- `DexScreenerService.applyFilters(pairs)` (src/dexscreener.service.ts):
keep exactly the pairs passing `acceptPair`. -/
def applyFilters (now maxTokenAgeHours : Int) (minLiquidityUsd : ℚ)
    (pairs : List TokenPair) : List TokenPair :=
  pairs.filter (acceptPair now maxTokenAgeHours minLiquidityUsd)

/-- Outcome of one `telegram.sendTokenAlert` call inside the dispatch loop
of src/unnamed/part_004: the promise resolves `true`, resolves `false`,
or rejects (the `catch` branch). -/
inductive SendResult where
  | success
  | failure
  | thrown
deriving DecidableEq

/-- Observable state of one batch of `SolanaTokenBot.checkForNewTokens`
(src/unnamed/part_004 lines 125-156): the `sentCount` and `failedCount`
counters, the tracker map, the number of pacing `sleep(1500)` calls
performed, and the trace of addresses on which a send was attempted. -/
structure BatchOutcome where
  sentCount : Nat
  failedCount : Nat
  tracker : List (String × Int)
  delayCount : Nat
  attempted : List String
deriving DecidableEq

/-- The dispatch loop `for (let i = 0; i < newPairs.length; i++)` of
src/unnamed/part_004 lines 128-153: attempt each pair in order; on a
`true` send, mark the address and count it sent, and sleep iff
`i < newPairs.length - 1`; on a `false` send or a thrown error, count it
failed and continue with the next pair.  `n` is `newPairs.length` and `i`
the current index. -/
def sendBatch (send : TokenPair → SendResult) (now : Int) (n : Nat) :
    Nat → List TokenPair → BatchOutcome → BatchOutcome
  | _, [], acc => acc
  | i, p :: rest, acc =>
      match send p with
      | .success =>
          sendBatch send now n (i + 1) rest
            { acc with
              attempted := acc.attempted ++ [p.baseTokenAddress]
              tracker := markAsSent p.baseTokenAddress now acc.tracker
              sentCount := acc.sentCount + 1
              delayCount := if i < n - 1 then acc.delayCount + 1 else acc.delayCount }
      | .failure =>
          sendBatch send now n (i + 1) rest
            { acc with
              attempted := acc.attempted ++ [p.baseTokenAddress]
              failedCount := acc.failedCount + 1 }
      | .thrown =>
          sendBatch send now n (i + 1) rest
            { acc with
              attempted := acc.attempted ++ [p.baseTokenAddress]
              failedCount := acc.failedCount + 1 }

/-- The dedup step of `checkForNewTokens`:
`pairs.filter(pair => !this.tokenTracker.hasSent(pair.baseToken.address))`. -/
def newPairsOf (pairs : List TokenPair) (tracker : List (String × Int)) : List TokenPair :=
  pairs.filter (fun p => !(hasSent p.baseTokenAddress tracker))

/-- The dispatch phase of `SolanaTokenBot.checkForNewTokens`
(src/unnamed/part_004): drop already-sent pairs, then run the dispatch
loop over the remainder starting from zeroed counters. -/
def checkForNewTokens (send : TokenPair → SendResult) (now : Int)
    (pairs : List TokenPair) (tracker : List (String × Int)) : BatchOutcome :=
  sendBatch send now (newPairsOf pairs tracker).length 0 (newPairsOf pairs tracker)
    ⟨0, 0, tracker, 0, []⟩

lemma lookupT_mapSet_self (k : String) (v : Int) (m : List (String × Int)) :
    lookupT k (mapSet k v m) = some v := by
  induction m with
  | nil => simp [mapSet, lookupT]
  | cons e rest ih =>
      obtain ⟨a, t⟩ := e
      by_cases hak : a = k
      · simp [mapSet, lookupT, hak]
      · simp [mapSet, lookupT, hak, ih]

lemma lookupT_mapSet_ne (k k' : String) (v : Int) (m : List (String × Int))
    (h : k' ≠ k) : lookupT k' (mapSet k v m) = lookupT k' m := by
  have h' : ¬(k = k') := fun hh => h hh.symm
  induction m with
  | nil => simp [mapSet, lookupT, h']
  | cons e rest ih =>
      obtain ⟨a, t⟩ := e
      by_cases hak : a = k
      · subst hak
        simp [mapSet, lookupT, h']
      · by_cases hak' : a = k'
        · subst hak'
          simp [mapSet, lookupT, hak, h']
        · simp [mapSet, lookupT, hak, hak', ih]

lemma length_mapSet_of_mem (k : String) (v : Int) (m : List (String × Int))
    (h : (lookupT k m).isSome = true) : (mapSet k v m).length = m.length := by
  induction m with
  | nil => simp [lookupT] at h
  | cons e rest ih =>
      obtain ⟨a, t⟩ := e
      by_cases hak : a = k
      · simp [mapSet, hak]
      · simp only [lookupT] at h
        rw [if_neg (by simpa using hak)] at h
        simp [mapSet, hak, ih h]

lemma lookupT_isSome_iff_mem (k : String) (m : List (String × Int)) :
    (lookupT k m).isSome = true ↔ ∃ t, (k, t) ∈ m := by
  induction m with
  | nil => simp [lookupT]
  | cons e rest ih =>
      obtain ⟨a, t⟩ := e
      by_cases hak : a = k
      · subst hak
        constructor
        · intro _
          exact ⟨t, List.mem_cons_self _ _⟩
        · intro _
          simp [lookupT]
      · have hka : ¬(k = a) := fun hh => hak hh.symm
        simp [lookupT, hak, hka, ih]

lemma lookupT_eq_some_mem (k : String) (t : Int) (m : List (String × Int))
    (h : lookupT k m = some t) : (k, t) ∈ m := by
  induction m with
  | nil => simp [lookupT] at h
  | cons e rest ih =>
      obtain ⟨a, u⟩ := e
      by_cases hak : a = k
      · subst hak
        simp only [lookupT] at h
        rw [if_pos (by simp)] at h
        cases h
        exact List.mem_cons_self _ _
      · simp only [lookupT] at h
        rw [if_neg (by simpa using hak)] at h
        exact List.mem_cons_of_mem _ (ih h)

lemma mem_mapSet (k : String) (v : Int) (m : List (String × Int)) (e : String × Int)
    (h : e ∈ mapSet k v m) : e = (k, v) ∨ e ∈ m := by
  induction m with
  | nil => simpa [mapSet] using h
  | cons f rest ih =>
      obtain ⟨a, t⟩ := f
      by_cases hak : a = k
      · subst hak
        simp only [mapSet] at h
        rw [if_pos (by simp), List.mem_cons] at h
        rcases h with h | h
        · exact Or.inl (by simpa using h)
        · exact Or.inr (List.mem_cons_of_mem _ h)
      · simp only [mapSet] at h
        rw [if_neg (by simpa using hak), List.mem_cons] at h
        rcases h with h | h
        · exact Or.inr (by simp [h])
        · rcases ih h with h' | h'
          · exact Or.inl h'
          · exact Or.inr (List.mem_cons_of_mem _ h')

lemma hasSent_mapSet_mono (k k' : String) (v : Int) (m : List (String × Int))
    (h : hasSent k m = true) : hasSent k (mapSet k' v m) = true := by
  by_cases hk : k = k'
  · subst hk
    simp [hasSent, lookupT_mapSet_self]
  · simpa [hasSent, lookupT_mapSet_ne k' k v m hk] using h

lemma foldl_mapSet_snd_const (c : Int) :
    ∀ (l acc : List (String × Int)),
      (∀ e ∈ acc, e.2 = c) → (∀ e ∈ l, e.2 = c) →
      ∀ e ∈ l.foldl (fun m e => mapSet e.1 e.2 m) acc, e.2 = c := by
  intro l
  induction l with
  | nil =>
      intro acc hacc _ e he
      exact hacc e he
  | cons f l' ih =>
      intro acc hacc hl e he
      simp only [List.foldl_cons] at he
      refine ih (mapSet f.1 f.2 acc) ?_ (fun x hx => hl x (List.mem_cons_of_mem _ hx)) e he
      intro x hx
      rcases mem_mapSet f.1 f.2 acc x hx with h | h
      · rw [h]
        exact hl f (List.mem_cons_self _ _)
      · exact hacc x h

lemma foldl_mapSet_hasKey (a : String) :
    ∀ (l acc : List (String × Int)),
      (hasSent a acc = true ∨ a ∈ l.map Prod.fst) →
      hasSent a (l.foldl (fun m e => mapSet e.1 e.2 m) acc) = true := by
  intro l
  induction l with
  | nil =>
      intro acc h
      rcases h with h | h
      · exact h
      · simp at h
  | cons f l' ih =>
      intro acc h
      simp only [List.foldl_cons]
      rcases h with h | h
      · exact ih _ (Or.inl (hasSent_mapSet_mono a f.1 f.2 acc h))
      · simp only [List.map_cons, List.mem_cons] at h
        rcases h with h | h
        · refine ih _ (Or.inl ?_)
          subst h
          simp [hasSent, lookupT_mapSet_self]
        · exact ih _ (Or.inr h)

/-- C4 (amended): `hasSent` is bare map membership — it is true iff an
entry for the id exists, expired or not; the retention window is enforced
only when `cleanup` runs, after which `hasSent` is true iff an entry with
`now - sentAtInstant ≤ retentionWindow` existed. -/
theorem tracker_has_iff_entry (m : List (String × Int)) (k : String) (maxAgeMs now : Int) :
    (hasSent k m = true ↔ ∃ t, (k, t) ∈ m)
    ∧ (hasSent k (cleanup maxAgeMs now m) = true ↔ ∃ t, (k, t) ∈ m ∧ now - t ≤ maxAgeMs) := by
  constructor
  · exact lookupT_isSome_iff_mem k m
  · rw [hasSent, lookupT_isSome_iff_mem]
    constructor
    · rintro ⟨t, ht⟩
      rw [cleanup, List.mem_filter] at ht
      refine ⟨t, ht.1, ?_⟩
      have h2 := ht.2
      simp only [Bool.not_eq_true', decide_eq_false_iff_not, not_lt] at h2
      omega
    · rintro ⟨t, hm, hle⟩
      refine ⟨t, ?_⟩
      rw [cleanup, List.mem_filter]
      refine ⟨hm, ?_⟩
      simp only [Bool.not_eq_true', decide_eq_false_iff_not, not_lt]
      omega

/-- C4 counterexample: mark `"A"` at instant 0; at `now = 120001` the only
entry is expired with respect to the 120000 ms retention window of the
in-memory tracker (and `cleanup` at that instant does remove it), yet
`hasSent "A"` still returns true. -/
theorem tracker_has_stale_counterexample :
    hasSent "A" (markAsSent "A" 0 []) = true
    ∧ lookupT "A" (markAsSent "A" 0 []) = some 0
    ∧ ((120000 : Int) < 120001 - 0)
    ∧ hasSent "A" (cleanup 120000 120001 (markAsSent "A" 0 [])) = false := by
  refine ⟨by decide, by decide, by decide, by decide⟩

/-- C5: `cleanup` removes exactly the entries whose age strictly exceeds
the retention window: an entry `(k, T)` survives eviction at
`T + W - 1` and at exactly `T + W`, and is gone after eviction at
`T + W + 1`. -/
theorem tracker_eviction_boundary (m : List (String × Int)) (W T : Int) (k : String)
    (hmem : (k, T) ∈ m) :
    (∀ (now : Int) (k' : String) (t : Int),
        (k', t) ∈ cleanup W now m ↔ (k', t) ∈ m ∧ now - t ≤ W)
    ∧ (k, T) ∈ cleanup W (T + W - 1) m
    ∧ (k, T) ∈ cleanup W (T + W) m
    ∧ (k, T) ∉ cleanup W (T + W + 1) m := by
  have hchar : ∀ (now : Int) (k' : String) (t : Int),
      (k', t) ∈ cleanup W now m ↔ (k', t) ∈ m ∧ now - t ≤ W := by
    intro now k' t
    rw [cleanup, List.mem_filter]
    constructor
    · rintro ⟨h1, h2⟩
      simp only [Bool.not_eq_true', decide_eq_false_iff_not, not_lt] at h2
      exact ⟨h1, by omega⟩
    · rintro ⟨h1, h2⟩
      refine ⟨h1, ?_⟩
      simp only [Bool.not_eq_true', decide_eq_false_iff_not, not_lt]
      omega
  refine ⟨hchar, ?_, ?_, ?_⟩
  · exact (hchar _ _ _).mpr ⟨hmem, by omega⟩
  · exact (hchar _ _ _).mpr ⟨hmem, by omega⟩
  · intro hcon
    have := ((hchar _ _ _).mp hcon).2
    omega

/-- C5 witness: a concrete entry marked at 5 with window 10 is present
after eviction at 14 and 15, and absent after eviction at 16. -/
theorem tracker_eviction_boundary_witness :
    ("A", (5 : Int)) ∈ cleanup 10 14 [("A", (5 : Int))]
    ∧ ("A", (5 : Int)) ∈ cleanup 10 15 [("A", (5 : Int))]
    ∧ ("A", (5 : Int)) ∉ cleanup 10 16 [("A", (5 : Int))] := by
  have h := tracker_eviction_boundary [("A", (5 : Int))] 10 5 "A" (by decide)
  exact ⟨h.2.1, h.2.2.1, h.2.2.2⟩

/-- C6: `markAsSent` is idempotent — marking the same id twice leaves
`hasSent` true and `getSentCount` unchanged after the second call
compared to after the first. -/
theorem tracker_mark_idempotent (m : List (String × Int)) (k : String) (t1 t2 : Int) :
    hasSent k (markAsSent k t2 (markAsSent k t1 m)) = true
    ∧ getSentCount (markAsSent k t2 (markAsSent k t1 m)) = getSentCount (markAsSent k t1 m) := by
  constructor
  · simp [hasSent, markAsSent, lookupT_mapSet_self]
  · have h : (lookupT k (markAsSent k t1 m)).isSome = true := by
      simp [markAsSent, lookupT_mapSet_self]
    simpa [getSentCount, markAsSent] using length_mapSet_of_mem k t2 _ h

/-- C7: loading a persisted store in the legacy bare-identifier-list
schema marks every listed identifier as sent with the load-time clock as
its synthetic timestamp, and writes the store back in the new timestamped
schema. -/
theorem tracker_legacy_migration (addrs : List String) (now : Int) (a : String)
    (ha : a ∈ addrs) :
    hasSent a (loadFromFile (some (.legacy addrs)) now).1 = true
    ∧ lookupT a (loadFromFile (some (.legacy addrs)) now).1 = some now
    ∧ (loadFromFile (some (.legacy addrs)) now).2
        = some (loadFromFile (some (.legacy addrs)) now).1
    ∧ ∀ e ∈ (loadFromFile (some (.legacy addrs)) now).1, e.2 = now := by
  have hlen : 0 < addrs.length := List.length_pos.mpr (List.ne_nil_of_mem ha)
  have hload : loadFromFile (some (.legacy addrs)) now
      = (buildMap (addrs.map (fun x => (x, now))),
         some (buildMap (addrs.map (fun x => (x, now))))) := by
    simp [loadFromFile, hlen]
  have hvals : ∀ e ∈ buildMap (addrs.map (fun x => (x, now))), e.2 = now := by
    refine foldl_mapSet_snd_const now _ [] (by simp) ?_
    intro e he
    rcases List.mem_map.mp he with ⟨x, _, hx⟩
    rw [← hx]
  have hkey : hasSent a (buildMap (addrs.map (fun x => (x, now)))) = true := by
    refine foldl_mapSet_hasKey a _ [] (Or.inr ?_)
    simpa [List.map_map, Function.comp] using ha
  have hlook : lookupT a (buildMap (addrs.map (fun x => (x, now)))) = some now := by
    rcases Option.isSome_iff_exists.mp hkey with ⟨t, ht⟩
    have hmem := lookupT_eq_some_mem a t _ ht
    have := hvals _ hmem
    simp only at this
    rw [ht, this]
  rw [hload]
  exact ⟨hkey, hlook, rfl, hvals⟩

/-- C7 witness: loading the legacy payload `["A", "B"]` at clock 7 marks
both identifiers with timestamp 7 and rewrites the store. -/
theorem tracker_legacy_migration_witness :
    hasSent "A" (loadFromFile (some (.legacy ["A", "B"])) 7).1 = true
    ∧ hasSent "B" (loadFromFile (some (.legacy ["A", "B"])) 7).1 = true
    ∧ lookupT "A" (loadFromFile (some (.legacy ["A", "B"])) 7).1 = some 7
    ∧ (loadFromFile (some (.legacy ["A", "B"])) 7).2
        = some (loadFromFile (some (.legacy ["A", "B"])) 7).1 :=
  ⟨(tracker_legacy_migration ["A", "B"] 7 "A" (by decide)).1,
   (tracker_legacy_migration ["A", "B"] 7 "B" (by decide)).1,
   (tracker_legacy_migration ["A", "B"] 7 "A" (by decide)).2.1,
   (tracker_legacy_migration ["A", "B"] 7 "A" (by decide)).2.2.1⟩

lemma hasCreatedAt_iff (p : TokenPair) :
    hasCreatedAt p = true ↔ ∃ c, p.pairCreatedAt = some c ∧ c ≠ 0 := by
  cases hc : p.pairCreatedAt <;> simp [hasCreatedAt, hc]

lemma hasMinLiquidity_iff (minLiquidityUsd : ℚ) (p : TokenPair) :
    hasMinLiquidity minLiquidityUsd p = true
      ↔ ∃ q, p.liquidityUsd = some q ∧ minLiquidityUsd ≤ q := by
  cases hq : p.liquidityUsd <;> simp [hasMinLiquidity, hq]

lemma keyOf_eq_of_some (p : TokenPair) (c : Int) (h : p.pairCreatedAt = some c) :
    keyOf p = c := by
  simp [keyOf, h]

lemma filter_key_orderedInsert (k : Int) (a : TokenPair) (l : List TokenPair) :
    (List.orderedInsert byNewest a l).filter (fun p => keyOf p == k)
      = (a :: l).filter (fun p => keyOf p == k) := by
  induction l with
  | nil => rfl
  | cons b bs ih =>
      by_cases hab : byNewest a b
      · rw [List.orderedInsert, if_pos hab]
      · rw [List.orderedInsert, if_neg hab]
        have hlt : keyOf a < keyOf b := lt_of_not_le hab
        have hne : keyOf a ≠ keyOf b := ne_of_lt hlt
        by_cases hbk : keyOf b = k
        · have hak2 : ¬(keyOf a = k) := fun h => hne (h.trans hbk.symm)
          simp [List.filter_cons, hbk, hak2, ih]
        · by_cases hak2 : keyOf a = k
          · simp [List.filter_cons, hbk, hak2, ih]
          · simp [List.filter_cons, hbk, hak2, ih]

lemma filter_key_insertionSort (k : Int) (l : List TokenPair) :
    (l.insertionSort byNewest).filter (fun p => keyOf p == k)
      = l.filter (fun p => keyOf p == k) := by
  induction l with
  | nil => rfl
  | cons x xs ih =>
      rw [List.insertionSort, filter_key_orderedInsert]
      simp [List.filter_cons, ih]

/-- C2: the seconds-based Filter output is truncated to the batch cap, is
sorted by `createdAt` descending (newest first), and ties — in fact any
subset of equal sort key — preserve their relative input order (the
restriction of the output to any fixed key value is an ordered sublist of
the input restricted to that key). -/
theorem filter_output_sorted_bounded (pairs : List TokenPair)
    (now maxTokenAgeSeconds : Int) (minLiquidityUsd : ℚ) (maxTokensPerBatch : Nat) :
    (fetchNewSolanaPairs6 pairs now maxTokenAgeSeconds minLiquidityUsd
        maxTokensPerBatch).length ≤ maxTokensPerBatch
    ∧ (fetchNewSolanaPairs6 pairs now maxTokenAgeSeconds minLiquidityUsd
        maxTokensPerBatch).Pairwise (fun a b => keyOf b ≤ keyOf a)
    ∧ ∀ k : Int,
        ((fetchNewSolanaPairs6 pairs now maxTokenAgeSeconds minLiquidityUsd
            maxTokensPerBatch).filter (fun p => keyOf p == k)).Sublist
          (pairs.filter (fun p => keyOf p == k)) := by
  refine ⟨List.length_take_le _ _, ?_, ?_⟩
  · have hsorted :
        (((pairs.filter (fun p => p.chainId == "solana")).filter
          hasCreatedAt).insertionSort byNewest).Pairwise byNewest :=
      List.sorted_insertionSort byNewest _
    have hsub : (fetchNewSolanaPairs6 pairs now maxTokenAgeSeconds minLiquidityUsd
        maxTokensPerBatch).Sublist
        (((pairs.filter (fun p => p.chainId == "solana")).filter
          hasCreatedAt).insertionSort byNewest) := by
      refine (List.take_sublist _ _).trans ?_
      exact (List.filter_sublist _).trans (List.filter_sublist _)
    exact List.Pairwise.sublist hsub hsorted
  · intro k
    have h1 : ((fetchNewSolanaPairs6 pairs now maxTokenAgeSeconds minLiquidityUsd
        maxTokensPerBatch).filter (fun p => keyOf p == k)).Sublist
        ((liquidPairs6 pairs now maxTokenAgeSeconds minLiquidityUsd).filter
          (fun p => keyOf p == k)) :=
      (List.take_sublist _ _).filter _
    have h2 : ((liquidPairs6 pairs now maxTokenAgeSeconds minLiquidityUsd).filter
        (fun p => keyOf p == k)).Sublist
        ((((pairs.filter (fun p => p.chainId == "solana")).filter
          hasCreatedAt).insertionSort byNewest).filter (fun p => keyOf p == k)) :=
      ((List.filter_sublist _).trans (List.filter_sublist _)).filter _
    have h3 : (((((pairs.filter (fun p => p.chainId == "solana")).filter
        hasCreatedAt).insertionSort byNewest).filter (fun p => keyOf p == k))).Sublist
        (pairs.filter (fun p => keyOf p == k)) := by
      rw [filter_key_insertionSort]
      exact ((List.filter_sublist _).trans (List.filter_sublist _)).filter _
    exact (h1.trans h2).trans h3

/-- C1 (amended): every output item of the seconds-based Filter has a
defined creation timestamp with age at most `maxTokenAgeSeconds`; and
every Solana-chain input item with a defined non-zero `pairCreatedAt`,
age within the window, and a present `liquidity.usd` of at least
`minLiquidityUsd` appears in the pre-truncation survivor list, the output
being exactly that list truncated after sorting. -/
theorem filter_age_liquidity_amended (pairs : List TokenPair)
    (now maxTokenAgeSeconds : Int) (minLiquidityUsd : ℚ) (maxTokensPerBatch : Nat) :
    (∀ p ∈ fetchNewSolanaPairs6 pairs now maxTokenAgeSeconds minLiquidityUsd
        maxTokensPerBatch,
        ∃ c, p.pairCreatedAt = some c ∧ now - c * 1000 ≤ maxTokenAgeSeconds * 1000)
    ∧ (∀ p ∈ pairs, p.chainId = "solana" →
        ∀ c, p.pairCreatedAt = some c → c ≠ 0 →
          now - c * 1000 ≤ maxTokenAgeSeconds * 1000 →
          ∀ q, p.liquidityUsd = some q → minLiquidityUsd ≤ q →
            p ∈ liquidPairs6 pairs now maxTokenAgeSeconds minLiquidityUsd)
    ∧ fetchNewSolanaPairs6 pairs now maxTokenAgeSeconds minLiquidityUsd maxTokensPerBatch
        = (liquidPairs6 pairs now maxTokenAgeSeconds minLiquidityUsd).take
            maxTokensPerBatch := by
  refine ⟨?_, ?_, rfl⟩
  · intro p hp
    have hliq : p ∈ liquidPairs6 pairs now maxTokenAgeSeconds minLiquidityUsd :=
      List.mem_of_mem_take hp
    rw [liquidPairs6] at hliq
    have h1 := List.mem_filter.mp hliq
    have h2 := List.mem_filter.mp h1.1
    have h3 := (List.mem_insertionSort byNewest).mp h2.1
    have h4 := List.mem_filter.mp h3
    rcases (hasCreatedAt_iff p).mp h4.2 with ⟨c, hc, -⟩
    refine ⟨c, hc, ?_⟩
    have hr := h2.2
    rw [isRecentPair, keyOf_eq_of_some p c hc] at hr
    have := of_decide_eq_true hr
    omega
  · intro p hp hch c hc hcnz hage q hq hmin
    have h1 : p ∈ pairs.filter (fun p => p.chainId == "solana") :=
      List.mem_filter.mpr ⟨hp, by simp [hch]⟩
    have h2 : p ∈ (pairs.filter (fun p => p.chainId == "solana")).filter hasCreatedAt :=
      List.mem_filter.mpr ⟨h1, (hasCreatedAt_iff p).mpr ⟨c, hc, hcnz⟩⟩
    have h3 : p ∈ ((pairs.filter (fun p => p.chainId == "solana")).filter
        hasCreatedAt).insertionSort byNewest :=
      (List.mem_insertionSort byNewest).mpr h2
    have h4 : p ∈ (((pairs.filter (fun p => p.chainId == "solana")).filter
        hasCreatedAt).insertionSort byNewest).filter
          (isRecentPair now maxTokenAgeSeconds) := by
      refine List.mem_filter.mpr ⟨h3, ?_⟩
      rw [isRecentPair, keyOf_eq_of_some p c hc]
      exact decide_eq_true (by omega)
    rw [liquidPairs6]
    exact List.mem_filter.mpr ⟨h4, (hasMinLiquidity_iff minLiquidityUsd p).mpr ⟨q, hq, hmin⟩⟩

/-- C1 witness: a Solana pair created at second 50 with liquidity 100 is
in the survivor list at `now = 50000` ms with a 60 s window and a
minimum liquidity of 5. -/
theorem filter_age_liquidity_amended_witness :
    (⟨"solana", "W", some 50, some 100⟩ : TokenPair)
      ∈ liquidPairs6 [⟨"solana", "W", some 50, some 100⟩] 50000 60 5 :=
  (filter_age_liquidity_amended [⟨"solana", "W", some 50, some 100⟩] 50000 60 5 10).2.1
    _ (List.mem_singleton.mpr rfl) rfl 50 rfl (by decide) (by decide) 100 rfl (by decide)

/-- C1 counterexample: a Solana pair with a defined `pairCreatedAt`, age
0 ≤ 60 s, and an absent `liquidity.usd` — which the claim counts as a
default liquidity of 0, not below `minLiquidityUsd = 0` — is nonetheless
rejected by the seconds-based Filter (which demands the field be present),
with an input strictly shorter than the batch cap so truncation cannot be
the cause. -/
theorem filter_default_liquidity_counterexample :
    fetchNewSolanaPairs6 [⟨"solana", "X", some 100, none⟩] 100000 60 0 10 = []
    ∧ (⟨"solana", "X", some 100, none⟩ : TokenPair).pairCreatedAt = some 100
    ∧ ((100000 : Int) - 100 * 1000 ≤ 60 * 1000)
    ∧ ((0 : ℚ) ≤ (⟨"solana", "X", some 100, none⟩ : TokenPair).liquidityUsd.getD 0)
    ∧ ([(⟨"solana", "X", some 100, none⟩ : TokenPair)].length ≤ 10) := by
  exact ⟨by decide, rfl, by decide, by decide, by decide⟩

/-- C3: `applyFilters` rejects every pair whose creation instant lies
strictly in the future relative to `now` — no pair in its output has
`createdAtMs > now`. -/
theorem applyFilters_no_future (pairs : List TokenPair) (now maxTokenAgeHours : Int)
    (minLiquidityUsd : ℚ) (p : TokenPair)
    (hp : p ∈ applyFilters now maxTokenAgeHours minLiquidityUsd pairs) :
    ∀ c, p.pairCreatedAt = some c → c * 1000 ≤ now := by
  intro c hc
  have hacc : acceptPair now maxTokenAgeHours minLiquidityUsd p = true :=
    (List.mem_filter.mp hp).2
  rw [acceptPair] at hacc
  rw [hc] at hacc
  simp only at hacc
  split_ifs at hacc with h1 h2 h3
  simp only [decide_eq_true_eq] at h2
  omega

/-- C3 witness: a pair created at second 10 passes `applyFilters` at
`now = 20000` ms, and its creation instant indeed does not exceed `now`. -/
theorem applyFilters_no_future_witness :
    (⟨"solana", "F", some 10, some 1000⟩ : TokenPair)
      ∈ applyFilters 20000 6 500 [⟨"solana", "F", some 10, some 1000⟩]
    ∧ (10 : Int) * 1000 ≤ 20000 :=
  ⟨by decide,
   applyFilters_no_future [⟨"solana", "F", some 10, some 1000⟩] 20000 6 500
     (⟨"solana", "F", some 10, some 1000⟩ : TokenPair) (by decide) 10 rfl⟩

/-- The ten strictly newer pairs of the C10 scenario: created at second
200, with no `liquidity.usd` field, so every one of them is rejected by
the liquidity filter. -/
def newerPairs : List TokenPair :=
  (List.range 10).map (fun i => ⟨"solana", "N" ++ toString i, some 200, none⟩)

/-- The fully-eligible pair of the C10 scenario: created at second 100
(older than the ten above), with liquidity 1000. -/
def eligiblePair : TokenPair :=
  ⟨"solana", "G", some 100, some 1000⟩

/-- C10: in the top-10 variant the truncation precedes the age and
liquidity filters, so with ten strictly newer pairs in the input — all of
them rejected by the liquidity filter — a pair satisfying every filter
predicate is absent from the output (which is empty here), while the
filter-then-truncate pipeline of the later variant accepts it on the same
input. -/
theorem top10_truncation_before_filters :
    fetchNewSolanaPairs5 (eligiblePair :: newerPairs) 200000 1000 0 = []
    ∧ hasCreatedAt eligiblePair = true
    ∧ isRecentPair 200000 1000 eligiblePair = true
    ∧ hasMinLiquidity 0 eligiblePair = true
    ∧ newerPairs.length = 10
    ∧ newerPairs.all
        (fun p => decide (keyOf eligiblePair < keyOf p) && !(hasMinLiquidity 0 p)) = true
    ∧ eligiblePair ∈ liquidPairs6 (eligiblePair :: newerPairs) 200000 1000 0 := by
  exact ⟨by decide, by decide, by decide, by decide, by decide, by decide, by decide⟩

lemma sendBatch_delayCount (send : TokenPair → SendResult) (now : Int) (n : Nat) :
    ∀ (rest : List TokenPair) (i : Nat) (acc : BatchOutcome), i + rest.length = n →
      (sendBatch send now n i rest acc).delayCount
        = acc.delayCount
          + (rest.take (rest.length - 1)).countP (fun p => send p == SendResult.success) := by
  intro rest
  induction rest with
  | nil =>
      intro i acc _
      simp [sendBatch]
  | cons p rest' ih =>
      intro i acc h
      have hn : i + (rest'.length + 1) = n := by simpa using h
      cases hs : send p with
      | success =>
          simp only [sendBatch, hs]
          rw [ih (i + 1) _ (by omega)]
          cases rest' with
          | nil =>
              have hni : ¬(i < n - 1) := by
                simp only [List.length_nil] at hn
                omega
              simp [hni]
          | cons q rs =>
              have hni : i < n - 1 := by
                simp only [List.length_cons] at hn
                omega
              simp only [hni, if_pos, List.length_cons, Nat.add_sub_cancel,
                List.take_succ_cons, List.countP_cons, hs]
              simp
              omega
      | failure =>
          simp only [sendBatch, hs]
          rw [ih (i + 1) _ (by omega)]
          cases rest' with
          | nil => simp
          | cons q rs =>
              simp only [List.length_cons, Nat.add_sub_cancel,
                List.take_succ_cons, List.countP_cons, hs]
              simp
      | thrown =>
          simp only [sendBatch, hs]
          rw [ih (i + 1) _ (by omega)]
          cases rest' with
          | nil => simp
          | cons q rs =>
              simp only [List.length_cons, Nat.add_sub_cancel,
                List.take_succ_cons, List.countP_cons, hs]
              simp

/-- A concrete pair used in dispatch scenarios. -/
def pairA : TokenPair :=
  ⟨"solana", "A1", some 1, some 10⟩

/-- A concrete pair used in dispatch scenarios. -/
def pairB : TokenPair :=
  ⟨"solana", "B2", some 2, some 10⟩

/-- A concrete pair used in dispatch scenarios. -/
def pairC : TokenPair :=
  ⟨"solana", "C3", some 3, some 10⟩

/-- A dispatch oracle on which every send resolves `true`. -/
def allSuccessSend : TokenPair → SendResult :=
  fun _ => SendResult.success

/-- A dispatch oracle on which the send of `pairA` resolves `false` and
every other send resolves `true`. -/
def failFirstSend : TokenPair → SendResult :=
  fun p => if p.baseTokenAddress == "A1" then SendResult.failure else SendResult.success

/-- A dispatch oracle on which the send of `pairB` resolves `false` and
every other send resolves `true`. -/
def failSecondSend : TokenPair → SendResult :=
  fun p => if p.baseTokenAddress == "B2" then SendResult.failure else SendResult.success

/-- C9 (amended): the dispatch loop inserts one pacing delay after each
successful send that is not in the last position — a failed or throwing
send inserts none — so the number of delays equals the number of
successes among all but the last dispatched item; in particular, when
every send succeeds, exactly N − 1 delays are inserted. -/
theorem batch_pacing_amended (send : TokenPair → SendResult) (now : Int)
    (pairs : List TokenPair) (tracker : List (String × Int)) :
    ((checkForNewTokens send now pairs tracker).delayCount
      = ((newPairsOf pairs tracker).take ((newPairsOf pairs tracker).length - 1)).countP
          (fun p => send p == SendResult.success))
    ∧ ((∀ p ∈ newPairsOf pairs tracker, send p = SendResult.success) →
        (checkForNewTokens send now pairs tracker).delayCount
          = (newPairsOf pairs tracker).length - 1) := by
  have hmain :
      (checkForNewTokens send now pairs tracker).delayCount
        = ((newPairsOf pairs tracker).take ((newPairsOf pairs tracker).length - 1)).countP
            (fun p => send p == SendResult.success) := by
    rw [checkForNewTokens]
    rw [sendBatch_delayCount send now (newPairsOf pairs tracker).length
      (newPairsOf pairs tracker) 0 ⟨0, 0, tracker, 0, []⟩ (by simp)]
    simp
  refine ⟨hmain, ?_⟩
  intro hall
  rw [hmain]
  have hlen : ((newPairsOf pairs tracker).take
      ((newPairsOf pairs tracker).length - 1)).countP
        (fun p => send p == SendResult.success)
      = ((newPairsOf pairs tracker).take ((newPairsOf pairs tracker).length - 1)).length := by
    rw [List.countP_eq_length]
    intro p hp
    have := hall p (List.mem_of_mem_take hp)
    simp [this]
  rw [hlen, List.length_take]
  omega

/-- C9 witness: with every send succeeding on a two-item dispatch set,
exactly one pacing delay is inserted. -/
theorem batch_pacing_amended_witness :
    (checkForNewTokens allSuccessSend 0 [pairA, pairB] []).delayCount
      = (newPairsOf [pairA, pairB] []).length - 1 :=
  (batch_pacing_amended allSuccessSend 0 [pairA, pairB] []).2 (fun _ _ => rfl)

/-- C9 counterexample: dispatching N = 2 items where the first send fails
inserts zero pacing delays, not N − 1 = 1 — the delay is skipped for
unsuccessful sends. -/
theorem batch_pacing_counterexample :
    (checkForNewTokens failFirstSend 0 [pairA, pairB] []).delayCount = 0
    ∧ [pairA, pairB].length - 1 = 1 := by
  exact ⟨by decide, by decide⟩

/-- C8: a single failing send does not abort the batch — with item #2 of
3 failing (whether the send resolves `false` or throws), items #1 and #3
are still attempted, marked in the tracker and counted, the failed item
is not marked, and the batch summary reports 2 sent and 1 failed. -/
theorem dispatch_failure_isolation (send : TokenPair → SendResult) (now : Int)
    (tracker : List (String × Int)) (a b c : TokenPair)
    (hab : a.baseTokenAddress ≠ b.baseTokenAddress)
    (hac : a.baseTokenAddress ≠ c.baseTokenAddress)
    (hbc : b.baseTokenAddress ≠ c.baseTokenAddress)
    (ha : hasSent a.baseTokenAddress tracker = false)
    (hb : hasSent b.baseTokenAddress tracker = false)
    (hc : hasSent c.baseTokenAddress tracker = false)
    (hsa : send a = SendResult.success)
    (hsb : send b ≠ SendResult.success)
    (hsc : send c = SendResult.success) :
    (checkForNewTokens send now [a, b, c] tracker).attempted
        = [a.baseTokenAddress, b.baseTokenAddress, c.baseTokenAddress]
    ∧ (checkForNewTokens send now [a, b, c] tracker).sentCount = 2
    ∧ (checkForNewTokens send now [a, b, c] tracker).failedCount = 1
    ∧ hasSent a.baseTokenAddress (checkForNewTokens send now [a, b, c] tracker).tracker = true
    ∧ hasSent c.baseTokenAddress (checkForNewTokens send now [a, b, c] tracker).tracker = true
    ∧ hasSent b.baseTokenAddress (checkForNewTokens send now [a, b, c] tracker).tracker
        = false := by
  have hnew : newPairsOf [a, b, c] tracker = [a, b, c] := by
    simp [newPairsOf, List.filter_cons, ha, hb, hc]
  have hmarks :
      ∀ tr, tr = markAsSent c.baseTokenAddress now (markAsSent a.baseTokenAddress now tracker) →
        hasSent a.baseTokenAddress tr = true
        ∧ hasSent c.baseTokenAddress tr = true
        ∧ hasSent b.baseTokenAddress tr = false := by
    rintro tr rfl
    refine ⟨?_, ?_, ?_⟩
    · refine hasSent_mapSet_mono _ _ _ _ ?_
      simp [hasSent, markAsSent, lookupT_mapSet_self]
    · simp [hasSent, markAsSent, lookupT_mapSet_self]
    · simp only [hasSent, markAsSent] at hb ⊢
      rw [lookupT_mapSet_ne c.baseTokenAddress b.baseTokenAddress now _ hbc,
        lookupT_mapSet_ne a.baseTokenAddress b.baseTokenAddress now tracker (Ne.symm hab)]
      exact hb
  cases hsb2 : send b with
  | success => exact absurd hsb2 hsb
  | failure =>
      have hrun : checkForNewTokens send now [a, b, c] tracker
          = ⟨2, 1, markAsSent c.baseTokenAddress now (markAsSent a.baseTokenAddress now tracker),
             1, [a.baseTokenAddress, b.baseTokenAddress, c.baseTokenAddress]⟩ := by
        rw [checkForNewTokens, hnew]
        simp [sendBatch, hsa, hsb2, hsc]
      rw [hrun]
      rcases hmarks _ rfl with ⟨h1, h2, h3⟩
      exact ⟨rfl, rfl, rfl, h1, h2, h3⟩
  | thrown =>
      have hrun : checkForNewTokens send now [a, b, c] tracker
          = ⟨2, 1, markAsSent c.baseTokenAddress now (markAsSent a.baseTokenAddress now tracker),
             1, [a.baseTokenAddress, b.baseTokenAddress, c.baseTokenAddress]⟩ := by
        rw [checkForNewTokens, hnew]
        simp [sendBatch, hsa, hsb2, hsc]
      rw [hrun]
      rcases hmarks _ rfl with ⟨h1, h2, h3⟩
      exact ⟨rfl, rfl, rfl, h1, h2, h3⟩

/-- C8 witness: the concrete three-item batch in which only the second
send fails reports 2 sent and 1 failed, marks items #1 and #3, and does
not mark item #2. -/
theorem dispatch_failure_isolation_witness :
    (checkForNewTokens failSecondSend 0 [pairA, pairB, pairC] []).sentCount = 2
    ∧ (checkForNewTokens failSecondSend 0 [pairA, pairB, pairC] []).failedCount = 1
    ∧ hasSent pairA.baseTokenAddress
        (checkForNewTokens failSecondSend 0 [pairA, pairB, pairC] []).tracker = true
    ∧ hasSent pairC.baseTokenAddress
        (checkForNewTokens failSecondSend 0 [pairA, pairB, pairC] []).tracker = true
    ∧ hasSent pairB.baseTokenAddress
        (checkForNewTokens failSecondSend 0 [pairA, pairB, pairC] []).tracker = false := by
  have h := dispatch_failure_isolation failSecondSend 0 [] pairA pairB pairC
    (by decide) (by decide) (by decide) (by decide) (by decide) (by decide)
    (by decide) (by decide) (by decide)
  exact ⟨h.2.1, h.2.2.1, h.2.2.2.1, h.2.2.2.2.1, h.2.2.2.2.2⟩
